import Mathlib

/-!
Verification of the DocStream PDF toolkit engine.

This file gives a shallow embedding of the core transformation functions of
the repository (src/core/pdf_processing.py, src/core/security.py, and the
call sites in src/app.py) and proves or refutes the specified properties.

Modelling conventions:
* Python strings are modelled as `List Char` (with `String` at the outer
  API boundary); `str.split(sep)` for a one-character separator is
  `splitOnChar`, `str.strip()` is `pyStrip`, and the builtin `int(...)`
  conversion is `pyInt` (whitespace-stripping, optional sign, decimal
  digits).
* Python `set` of integers is `Finset Int`; `sorted(list(s))` is
  `Finset.sort (· ≤ ·)`.
* Raised exceptions are `Except String` (the carried message) or, for the
  helpers that the source wraps in try/except, `Option`.
* Image bytes are `List Nat`; the PIL decode/convert/encode pipeline of
  `compress_pdf` is abstracted as an arbitrary function
  `encode : Nat → List Nat → Option (List Nat)` (quality and input bytes to
  re-encoded bytes, `none` for a codec failure), since PIL is external to
  the repository and the verified properties quantify over its behaviour.
-/

/-! ## Python string primitives -/

/-- Python `s.split(sep)` for a single-character separator: splits at every
occurrence of `sep`, keeping empty pieces, and yields one piece for the
empty input. -/
def splitOnChar (sep : Char) : List Char → List (List Char)
  | [] => [[]]
  | c :: rest =>
    if c = sep then [] :: splitOnChar sep rest
    else
      match splitOnChar sep rest with
      | [] => [[c]]
      | h :: t => (c :: h) :: t

/-- Python `s.strip()`: drop leading and trailing whitespace. -/
def pyStrip (l : List Char) : List Char :=
  ((l.dropWhile Char.isWhitespace).reverse.dropWhile Char.isWhitespace).reverse

/-- A nonempty run of decimal digits. -/
def isDigits (l : List Char) : Bool :=
  !l.isEmpty && l.all Char.isDigit

/-- Value of a run of decimal digits. -/
def digitsVal (l : List Char) : Nat :=
  l.foldl (fun a c => a * 10 + (c.toNat - 48)) 0

/-- Python `int(s)`: strip whitespace, then an optional sign followed by a
nonempty digit run; anything else raises `ValueError` (here `none`). -/
def pyInt (s : List Char) : Option Int :=
  match pyStrip s with
  | '+' :: r => if isDigits r then some ((digitsVal r : Nat) : Int) else none
  | '-' :: r => if isDigits r then some (-((digitsVal r : Nat) : Int)) else none
  | r => if isDigits r then some ((digitsVal r : Nat) : Int) else none

/-- Python `range(a, b)` over integers: the list `[a, a+1, ..., b-1]`,
empty when `b ≤ a`. -/
def intRange (a b : Int) : List Int :=
  (List.range (b - a).toNat).map (fun k => a + k)

/-! ## The page-range parser (`_parse_page_range` in pdf_processing.py) -/

/-- One loop iteration of `_parse_page_range`: process one (stripped) token
against the accumulated set.  A token containing a dash must split into
exactly two integer fields `start`, `end` and contributes
`range(start - 1, end)`; any other token is a single integer `n`
contributing index `n - 1`.  `none` models the `ValueError` caught by the
source (non-numeric field, missing field, or a dash token with more than
two fields). -/
def addToken (acc : Finset Int) (part : List Char) : Option (Finset Int) :=
  if part.contains '-' then
    match splitOnChar '-' part with
    | [a, b] =>
      match pyInt a, pyInt b with
      | some s, some e => some (acc ∪ (intRange (s - 1) e).toFinset)
      | _, _ => none
    | _ => none
  else
    (pyInt part).map (fun n => insert (n - 1) acc)

/-- The pure meaning of a single token, independent of the accumulator. -/
def tokenIndices (part : List Char) : Option (Finset Int) :=
  if part.contains '-' then
    match splitOnChar '-' part with
    | [a, b] =>
      match pyInt a, pyInt b with
      | some s, some e => some (intRange (s - 1) e).toFinset
      | _, _ => none
    | _ => none
  else
    (pyInt part).map (fun n => {n - 1})

instance {ε α : Type} [DecidableEq ε] [DecidableEq α] : DecidableEq (Except ε α) := fun a b =>
  match a, b with
  | Except.ok x, Except.ok y =>
    if h : x = y then isTrue (by rw [h]) else
      isFalse (fun c => h (Except.ok.injEq x y ▸ c))
  | Except.error e, Except.error f =>
    if h : e = f then isTrue (by rw [h]) else
      isFalse (fun c => h (Except.error.injEq e f ▸ c))
  | Except.ok _, Except.error _ => isFalse (fun c => Except.noConfusion c)
  | Except.error _, Except.ok _ => isFalse (fun c => Except.noConfusion c)

/-- The token loop of `_parse_page_range`: process the stripped parts in
order, threading the accumulated set; the first `ValueError` (`none`)
aborts the whole loop, discarding the accumulator. -/
def parseParts : Finset Int → List (List Char) → Option (Finset Int)
  | acc, [] => some acc
  | acc, p :: ps =>
    match addToken acc p with
    | none => none
    | some acc2 => parseParts acc2 ps

/-- `_parse_page_range(page_range, total_pages)`: split on commas, strip
each part, fold the tokens into a set of zero-based indices; any
`ValueError` is converted to the fixed error message.  `total_pages` is
accepted but never used, exactly as in the source. -/
def parsePageRange (pageRange : String) (totalPages : Nat) :
    Except String (Finset Int) :=
  match parseParts ∅ ((splitOnChar ',' pageRange.toList).map pyStrip) with
  | some s => Except.ok s
  | none => Except.error "Invalid page range format. Use numbers and ranges like 1, 3-5."

/-- The token-by-token meaning of a stripped part list: the list of index
sets of the tokens, `none` as soon as any token is malformed.  Used to
state what the accumulator loop of the parser computes. -/
def tokensSem : List (List Char) → Option (List (Finset Int))
  | [] => some []
  | p :: ps =>
    match tokenIndices p, tokensSem ps with
    | some t, some ts => some (t :: ts)
    | _, _ => none

/-! ## The document model -/

/-- A page of a document: an abstract content identifier, the `/Rotate`
attribute, and the list of raster image resources the page references
(identifiers into a shared resource pool, in the order `page.images`
yields them). -/
structure PdfPage where
  content : Nat
  rotation : Int
  images : List Nat
deriving DecidableEq

/-- A document as `PdfReader`/`PdfWriter` expose it to the source code: an
ordered list of pages.  The shared image-resource pool is kept separately
as a map from resource identifier to stored bytes (see `compress_pdf`). -/
structure PdfDocument where
  pages : List PdfPage
deriving DecidableEq

/-! ## `merge_pdfs` (pdf_processing.py) and its caller in app.py -/

/-- `merge_pdfs(pdf_files)`: appends every input document to one writer in
list order and returns the result.  The source performs no validation of
the input count; `merger.append` adds all pages of a source in their
original order. -/
def merge_pdfs (docs : List PdfDocument) : PdfDocument :=
  ⟨docs.foldl (fun acc d => acc ++ d.pages) []⟩

/-- The merge flow of app.py: if fewer than two files are uploaded, a
warning is shown and `merge_pdfs` is never invoked (`none`); otherwise the
merge result is produced. -/
def mergeUI (docs : List PdfDocument) : Option PdfDocument :=
  if docs.length < 2 then none else some (merge_pdfs docs)

/-! ## `split_pdf` (pdf_processing.py) -/

/-- The bounds test `0 <= page_num < total_pages` of `split_pdf`. -/
def inBounds (n : Nat) (i : Int) : Bool :=
  0 ≤ i && i < (n : Int)

/-- The page-selection loop of `split_pdf`: sort the parsed index set
ascending, keep each in-bounds page of the source, and count a recorded
warning for every out-of-range index (which is skipped, not fatal).
Returns the selected pages in sorted-index order together with the number
of warnings. -/
def splitSelect (pages : List PdfPage) (sel : Finset Int) : List PdfPage × Nat :=
  let sorted := sel.sort (· ≤ ·)
  (sorted.filterMap (fun i => if inBounds pages.length i then pages.get? i.toNat else none),
   (sorted.filter (fun i => !inBounds pages.length i)).length)

/-- `split_pdf(pdf_file, page_range)`: parse the range string (a
`ValueError` propagates to the caller), then write the selected pages.
The result is the new document plus the number of out-of-range warnings;
note that the source never raises on an empty selection. -/
def split_pdf (doc : PdfDocument) (pageRange : String) :
    Except String (PdfDocument × Nat) :=
  (parsePageRange pageRange doc.pages.length).map (fun sel =>
    let r := splitSelect doc.pages sel
    (⟨r.1⟩, r.2))

/-- The full index set `{0, ..., n-1}` of a document with `n` pages, used
to state the full-range split property. -/
def fullRange (n : Nat) : Finset Int :=
  ((List.range n).map (fun k : Nat => (k : Int))).toFinset

/-! ## `rotate_pdf_pages` (pdf_processing.py) -/

/-- Modelled from the spec: `PageObject.rotate` belongs to the external
pypdf library, not to this repository.  Per the spec (§3, §4.3) a page's
rotation attribute is stored modulo 360 and rotating adds the angle to the
page's existing rotation attribute. -/
def rotatePage (angle : Int) (p : PdfPage) : PdfPage :=
  { p with rotation := (p.rotation + angle) % 360 }

/-- The page loop of `rotate_pdf_pages`: every page is copied; a page is
rotated when no range was given or its index is in the parsed set.
`i` is the running `enumerate` index. -/
def rotateFrom (angle : Int) (sel : Finset Int) : Nat → List PdfPage → List PdfPage
  | _, [] => []
  | i, p :: ps =>
    (if (i : Int) ∈ sel then rotatePage angle p else p) :: rotateFrom angle sel (i + 1) ps

/-- `rotate_pdf_pages(pdf_file, rotation, page_range)`: a falsy
`page_range` (absent or the empty string) rotates every page; otherwise
the range string is parsed (errors propagate) and only pages whose index
is in the set are rotated. -/
def rotate_pdf_pages (doc : PdfDocument) (rotation : Int) (pageRange : Option String) :
    Except String PdfDocument :=
  match pageRange with
  | none => Except.ok ⟨doc.pages.map (rotatePage rotation)⟩
  | some s =>
    if s = "" then Except.ok ⟨doc.pages.map (rotatePage rotation)⟩
    else
      (parsePageRange s doc.pages.length).map (fun sel =>
        ⟨rotateFrom rotation sel 0 doc.pages⟩)

/-! ## `compress_pdf` (pdf_processing.py) -/

/-- One image visit of the compression loop, with the PIL
decode/convert/encode pipeline abstracted as `encode` (`none` models any
exception inside the `try` block, which leaves the image untouched and is
recorded as a non-fatal warning).  The re-encoded bytes replace the stored
bytes only when strictly smaller; the `Bool` reports whether a replacement
happened (`images_compressed`). -/
def tryCompressImage (encode : Nat → List Nat → Option (List Nat)) (quality : Nat)
    (data : List Nat) : List Nat × Bool :=
  match encode quality data with
  | none => (data, false)
  | some c => if c.length < data.length then (c, true) else (data, false)

/-- The visit order of the image loop: for every page in order, every
image reference of that page in order.  A resource referenced by several
pages occurs once per referencing page. -/
def visitList (doc : PdfDocument) : List Nat :=
  (doc.pages.map (fun p => p.images)).flatten

/-- The image loop of `compress_pdf` over a resource pool: visit every
page's image references in order, updating the pool at the visited
resource identifier; returns the final pool and `images_compressed`. -/
def compressLoop (encode : Nat → List Nat → Option (List Nat)) (quality : Nat) :
    List Nat → (Nat → List Nat) → (Nat → List Nat) × Nat
  | [], pool => (pool, 0)
  | id :: rest, pool =>
    let r := tryCompressImage encode quality (pool id)
    let pool1 : Nat → List Nat := fun j => if j = id then r.1 else pool j
    let rec1 := compressLoop encode quality rest pool1
    (rec1.1, (if r.2 then 1 else 0) + rec1.2)

/-- The outcome of `compress_pdf`: the updated resource pool and the two
reported counters. -/
structure CompressResult where
  pool : Nat → List Nat
  found : Nat
  compressed : Nat

/-- `compress_pdf(pdf_file, quality)` restricted to its image pipeline:
every page's image references are visited in page order
(`images_found` counts every visit), each visited resource is re-encoded
and replaced only when the result is strictly smaller. -/
def compress_pdf (encode : Nat → List Nat → Option (List Nat)) (quality : Nat)
    (doc : PdfDocument) (pool : Nat → List Nat) : CompressResult :=
  let r := compressLoop encode quality (visitList doc) pool
  ⟨r.1, (visitList doc).length, r.2⟩

/-! ## `encrypt_pdf` / `decrypt_pdf` (security.py) -/

/-- A serialized document as the security functions see it: its pages and
its encryption state (`none` when unencrypted, otherwise the password the
standard security handler was keyed with). -/
structure PdfFile where
  pages : List PdfPage
  password : Option String
deriving DecidableEq

/-- `encrypt_pdf(file, password)`: copy every page into a fresh writer and
serialize it encrypted under `password`.  Modelled from the spec:
`writer.encrypt` is external pypdf code; per the spec (§4.5) it installs a
standard password handler using the given string. -/
def encrypt_pdf (file : PdfFile) (pw : String) : PdfFile :=
  ⟨file.pages, some pw⟩

/-- `decrypt_pdf(file, password)`: an unencrypted input is loaded as-is
with a recorded warning (the `Bool` of the result); an encrypted input is
unlocked — modelled from the spec, since `reader.decrypt` is external
pypdf code: a wrong password raises (AuthenticationError), a correct one
yields the pages copied into a fresh, unencrypted writer. -/
def decrypt_pdf (file : PdfFile) (pw : String) : Except String (PdfFile × Bool) :=
  match file.password with
  | none => Except.ok (⟨file.pages, none⟩, true)
  | some p =>
    if pw = p then Except.ok (⟨file.pages, none⟩, false)
    else Except.error "AuthenticationError"

/-! ## Helper lemmas -/

lemma tryCompressImage_length_le (encode : Nat → List Nat → Option (List Nat))
    (quality : Nat) (data : List Nat) :
    (tryCompressImage encode quality data).1.length ≤ data.length := by
  unfold tryCompressImage
  cases h : encode quality data with
  | none => exact le_refl _
  | some c =>
    show (if c.length < data.length then (c, true) else (data, false)).1.length ≤ data.length
    by_cases hc : c.length < data.length
    · rw [if_pos hc]
      exact le_of_lt hc
    · rw [if_neg hc]

lemma compressLoop_length_le (encode : Nat → List Nat → Option (List Nat))
    (quality : Nat) (visits : List Nat) (pool : Nat → List Nat) (id : Nat) :
    ((compressLoop encode quality visits pool).1 id).length ≤ (pool id).length := by
  induction visits generalizing pool with
  | nil => simp [compressLoop]
  | cons v rest ih =>
    show ((compressLoop encode quality (v :: rest) pool).1 id).length ≤ (pool id).length
    unfold compressLoop
    refine le_trans (ih _) ?_
    by_cases hv : id = v
    · subst hv
      simpa using tryCompressImage_length_le encode quality (pool id)
    · simp [hv]

lemma compressLoop_untouched (encode : Nat → List Nat → Option (List Nat))
    (quality : Nat) (visits : List Nat) (pool : Nat → List Nat) (id : Nat)
    (h : id ∉ visits) :
    (compressLoop encode quality visits pool).1 id = pool id := by
  induction visits generalizing pool with
  | nil => rfl
  | cons v rest ih =>
    unfold compressLoop
    have hv : id ≠ v := fun hc => h (hc ▸ List.mem_cons_self v rest)
    have hrest : id ∉ rest := fun hc => h (List.mem_cons_of_mem v hc)
    rw [ih _ hrest]
    simp [hv]

lemma rotatePage_involutive_180 (p : PdfPage) (h0 : 0 ≤ p.rotation)
    (h1 : p.rotation < 360) : rotatePage 180 (rotatePage 180 p) = p := by
  cases p with
  | mk c r im =>
    change 0 ≤ r at h0
    change r < 360 at h1
    show (⟨c, ((r + 180) % 360 + 180) % 360, im⟩ : PdfPage) = ⟨c, r, im⟩
    have hr : ((r + 180) % 360 + 180) % 360 = r := by omega
    rw [hr]

lemma merge_pdfs_foldl (docs : List PdfDocument) (acc : List PdfPage) :
    docs.foldl (fun a d => a ++ d.pages) acc = acc ++ (docs.map (fun d => d.pages)).flatten := by
  induction docs generalizing acc with
  | nil => simp
  | cons d rest ih => simp [ih, List.append_assoc]

/-! ## Claim C1 -/

/-- C1: for every document, every quality in [1,95], every resource pool
and every behaviour of the external codec, a visited image's stored bytes
are replaced exactly when the re-encoded bytes are strictly smaller
(a codec failure leaves them untouched), and consequently the final stored
bytes of every single image resource are never longer than the original
ones. -/
theorem compress_never_increases_image_size
    (encode : Nat → List Nat → Option (List Nat)) (quality : Nat)
    (hq1 : 1 ≤ quality) (hq2 : quality ≤ 95) :
    (∀ data c, encode quality data = some c →
      tryCompressImage encode quality data =
        if c.length < data.length then (c, true) else (data, false))
    ∧ (∀ data, encode quality data = none →
      tryCompressImage encode quality data = (data, false))
    ∧ ∀ (doc : PdfDocument) (pool : Nat → List Nat) (id : Nat),
        ((compress_pdf encode quality doc pool).pool id).length ≤ (pool id).length := by
  refine ⟨?_, ?_, ?_⟩
  · intro data c h
    unfold tryCompressImage
    rw [h]
  · intro data h
    unfold tryCompressImage
    rw [h]
  · intro doc pool id
    exact compressLoop_length_le encode quality (visitList doc) pool id

/-- Witness for C1 at a concrete codec, quality, document and pool. -/
theorem compress_never_increases_image_size_witness :
    ((compress_pdf (fun _ l => some (l.drop 1)) 50 ⟨[⟨0, 0, [0]⟩]⟩
      (fun _ => [1, 2, 3])).pool 0).length ≤ 3 :=
  (compress_never_increases_image_size (fun _ l => some (l.drop 1)) 50
    (by decide) (by decide)).2.2 ⟨[⟨0, 0, [0]⟩]⟩ (fun _ => [1, 2, 3]) 0

/-! ## Claim C7 -/

/-- C7 counterexample: in a document whose two pages reference the same
image resource 7, the loop of `compress_pdf` visits the shared resource
once per referencing page: `images_found` reports 2 although only one
distinct resource exists, the resource is re-encoded twice
(`images_compressed` = 2), and its bytes shrink twice. -/
theorem compress_shared_resource_visited_per_page :
    (compress_pdf (fun _ l => some (l.drop 1)) 50 ⟨[⟨0, 0, [7]⟩, ⟨1, 0, [7]⟩]⟩
      (fun _ => [9, 9, 9, 9])).found = 2
    ∧ (visitList ⟨[⟨0, 0, [7]⟩, ⟨1, 0, [7]⟩]⟩).dedup.length = 1
    ∧ (compress_pdf (fun _ l => some (l.drop 1)) 50 ⟨[⟨0, 0, [7]⟩, ⟨1, 0, [7]⟩]⟩
      (fun _ => [9, 9, 9, 9])).compressed = 2
    ∧ (compress_pdf (fun _ l => some (l.drop 1)) 50 ⟨[⟨0, 0, [7]⟩, ⟨1, 0, [7]⟩]⟩
      (fun _ => [9, 9, 9, 9])).pool 7 = [9, 9] := by
  refine ⟨rfl, by decide, rfl, rfl⟩

/-- C7 amended: `compress_pdf` enumerates image references page by page,
so `images_found` counts one visit per page-level reference (a resource
shared by several pages is counted and re-encoded once per referencing
page, not once overall), and resources referenced by no page are left
untouched. -/
theorem compress_visits_each_page_reference
    (encode : Nat → List Nat → Option (List Nat)) (quality : Nat)
    (doc : PdfDocument) (pool : Nat → List Nat) :
    (compress_pdf encode quality doc pool).found
      = (doc.pages.map (fun p => p.images.length)).sum
    ∧ ∀ id, id ∉ visitList doc →
        (compress_pdf encode quality doc pool).pool id = pool id := by
  constructor
  · show (visitList doc).length = _
    unfold visitList
    rw [List.length_flatten, List.map_map]
    rfl
  · intro id h
    exact compressLoop_untouched encode quality (visitList doc) pool id h

/-- Witness for C7's amended theorem at a concrete document and pool. -/
theorem compress_visits_each_page_reference_witness :
    (compress_pdf (fun _ _ => none) 50 ⟨[⟨0, 0, [7]⟩, ⟨1, 0, [7]⟩]⟩
      (fun _ => [4])).found = 2
    ∧ (compress_pdf (fun _ _ => none) 50 ⟨[⟨0, 0, [7]⟩, ⟨1, 0, [7]⟩]⟩
      (fun _ => [4])).pool 3 = [4] := by
  have h := compress_visits_each_page_reference (fun _ _ => none) 50
    ⟨[⟨0, 0, [7]⟩, ⟨1, 0, [7]⟩]⟩ (fun _ => [4])
  exact ⟨h.1.trans (by decide), h.2 3 (by decide)⟩

/-! ## Claim C9 -/

/-- C9: decrypting an encrypted document with the password used to encrypt
it succeeds and yields a document with the same pages (hence the same page
count and content) whose output is unencrypted and carries no no-op
warning, while a wrong password fails with AuthenticationError. -/
theorem decrypt_encrypt_roundtrip (D : PdfFile) (pw wrong : String)
    (hD : D.password = none) (hpw : pw ≠ "") (hw : wrong ≠ pw) :
    decrypt_pdf (encrypt_pdf D pw) pw = Except.ok (⟨D.pages, none⟩, false)
    ∧ (∀ out : PdfFile × Bool, decrypt_pdf (encrypt_pdf D pw) pw = Except.ok out →
        out.1.pages.length = D.pages.length ∧ out.1.password = none)
    ∧ decrypt_pdf (encrypt_pdf D pw) wrong = Except.error "AuthenticationError" := by
  refine ⟨?_, ?_, ?_⟩
  · simp [encrypt_pdf, decrypt_pdf]
  · intro out hout
    simp [encrypt_pdf, decrypt_pdf] at hout
    rw [← hout]
    exact ⟨rfl, rfl⟩
  · simp [encrypt_pdf, decrypt_pdf, hw]

/-- Witness for C9 at a concrete document and passwords. -/
theorem decrypt_encrypt_roundtrip_witness :
    decrypt_pdf (encrypt_pdf ⟨[⟨5, 0, []⟩], none⟩ "pw") "pw"
      = Except.ok (⟨[⟨5, 0, []⟩], none⟩, false)
    ∧ decrypt_pdf (encrypt_pdf ⟨[⟨5, 0, []⟩], none⟩ "pw") "wrong"
      = Except.error "AuthenticationError" := by
  have h := decrypt_encrypt_roundtrip ⟨[⟨5, 0, []⟩], none⟩ "pw" "wrong"
    rfl (by decide) (by decide)
  exact ⟨h.1, h.2.2⟩

/-! ## Claim C6 -/

/-- C6: rotation is additive modulo 360 against the page's existing
rotation attribute: the new attribute is always `(old + delta) % 360`, a
page already at 90° rotated by 180° lands at 270°, and rotating by 180°
twice (also through `rotate_pdf_pages` on a whole document) restores every
rotation attribute. -/
theorem rotation_additive_mod_360 (p : PdfPage) (doc : PdfDocument)
    (h0 : 0 ≤ p.rotation) (h1 : p.rotation < 360)
    (hdoc : ∀ q ∈ doc.pages, 0 ≤ q.rotation ∧ q.rotation < 360) :
    (∀ (q : PdfPage) (d : Int), (rotatePage d q).rotation = (q.rotation + d) % 360)
    ∧ (p.rotation = 90 → (rotatePage 180 p).rotation = 270)
    ∧ rotatePage 180 (rotatePage 180 p) = p
    ∧ (rotate_pdf_pages doc 180 none).bind (fun d => rotate_pdf_pages d 180 none)
        = Except.ok doc := by
  refine ⟨fun q d => rfl, ?_, rotatePage_involutive_180 p h0 h1, ?_⟩
  · intro h90
    simp [rotatePage, h90]
  · show (Except.ok (⟨doc.pages.map (rotatePage 180)⟩ : PdfDocument)).bind
      (fun d => rotate_pdf_pages d 180 none) = Except.ok doc
    simp only [Except.bind, rotate_pdf_pages, List.map_map]
    have hmap : doc.pages.map (rotatePage 180 ∘ rotatePage 180) = doc.pages := by
      have hcg : ∀ q ∈ doc.pages, (rotatePage 180 ∘ rotatePage 180) q = id q :=
        fun q hq => rotatePage_involutive_180 q (hdoc q hq).1 (hdoc q hq).2
      rw [List.map_congr_left hcg, List.map_id]
    rw [hmap]

/-- Witness for C6 at a concrete page and document. -/
theorem rotation_additive_mod_360_witness :
    rotatePage 180 (rotatePage 180 ⟨0, 90, []⟩) = (⟨0, 90, []⟩ : PdfPage)
    ∧ (rotate_pdf_pages ⟨[⟨0, 90, []⟩]⟩ 180 none).bind
        (fun d => rotate_pdf_pages d 180 none) = Except.ok ⟨[⟨0, 90, []⟩]⟩ := by
  have h := rotation_additive_mod_360 ⟨0, 90, []⟩ ⟨[⟨0, 90, []⟩]⟩
    (by decide) (by decide) (by decide)
  exact ⟨h.2.2.1, h.2.2.2⟩

/-! ## Claim C3 -/

/-- C3 counterexample: `merge_pdfs` performs no input-count validation —
called with a single document it succeeds, returning that document's
pages, and called with no documents it returns an empty document; neither
call fails with a ValidationError. -/
theorem merge_single_input_succeeds :
    merge_pdfs [⟨[⟨0, 0, []⟩]⟩] = (⟨[⟨0, 0, []⟩]⟩ : PdfDocument)
    ∧ merge_pdfs [] = (⟨[]⟩ : PdfDocument) := by
  decide

/-- C3 amended: `merge_pdfs` concatenates all pages in source-list order,
then page order within each source, for any number of inputs, and itself
never validates the input count; the at-least-two requirement lives in the
UI layer (app.py), which shows a warning and does not invoke the merge
when fewer than two files are uploaded. -/
theorem merge_concatenates_in_order :
    (∀ docs : List PdfDocument,
      (merge_pdfs docs).pages = (docs.map (fun d => d.pages)).flatten)
    ∧ (∀ A B : PdfDocument, (merge_pdfs [A, B]).pages = A.pages ++ B.pages)
    ∧ (∀ docs : List PdfDocument, docs.length < 2 → mergeUI docs = none)
    ∧ (∀ docs : List PdfDocument, 2 ≤ docs.length →
        mergeUI docs = some (merge_pdfs docs)) := by
  refine ⟨?_, ?_, ?_, ?_⟩
  · intro docs
    show docs.foldl (fun a d => a ++ d.pages) [] = _
    rw [merge_pdfs_foldl]
    rfl
  · intro A B
    show ([] ++ A.pages) ++ B.pages = A.pages ++ B.pages
    simp
  · intro docs h
    simp [mergeUI, h]
  · intro docs h
    have h2 : ¬ docs.length < 2 := by omega
    simp [mergeUI, h2]

/-- Witness for C3's amended theorem at concrete document lists. -/
theorem merge_concatenates_in_order_witness :
    mergeUI [⟨[⟨0, 0, []⟩]⟩] = none
    ∧ mergeUI [⟨[⟨0, 0, []⟩]⟩, ⟨[⟨1, 0, []⟩]⟩]
        = some (merge_pdfs [⟨[⟨0, 0, []⟩]⟩, ⟨[⟨1, 0, []⟩]⟩]) := by
  exact ⟨merge_concatenates_in_order.2.2.1 [⟨[⟨0, 0, []⟩]⟩] (by decide),
    merge_concatenates_in_order.2.2.2 [⟨[⟨0, 0, []⟩]⟩, ⟨[⟨1, 0, []⟩]⟩] (by decide)⟩

/-! ## Parser lemmas -/

lemma parsePageRange_totalPages_irrelevant (s : String) (n m : Nat) :
    parsePageRange s n = parsePageRange s m := rfl

lemma addToken_eq (acc : Finset Int) (part : List Char) :
    addToken acc part = (tokenIndices part).map (fun t => acc ∪ t) := by
  unfold addToken tokenIndices
  by_cases h : part.contains '-'
  · simp only [h, if_true]
    cases splitOnChar '-' part with
    | nil => rfl
    | cons a t =>
      cases t with
      | nil => rfl
      | cons b t2 =>
        cases t2 with
        | nil => cases ha : pyInt a <;> cases hb : pyInt b <;> simp [ha, hb]
        | cons x t3 => rfl
  · simp only [h, Bool.false_eq_true, if_false]
    cases pyInt part with
    | none => rfl
    | some k =>
      show some (insert (k - 1) acc) = some (acc ∪ {k - 1})
      congr 1
      ext z
      simp [or_comm]

lemma parseParts_eq (parts : List (List Char)) (acc : Finset Int) :
    parseParts acc parts = (tokensSem parts).map (fun ts => ts.foldl (· ∪ ·) acc) := by
  induction parts generalizing acc with
  | nil => rfl
  | cons p ps ih =>
    show (match addToken acc p with
      | none => none
      | some acc2 => parseParts acc2 ps) = (tokensSem (p :: ps)).map _
    rw [addToken_eq]
    unfold tokensSem
    cases ht : tokenIndices p with
    | none =>
      cases tokensSem ps <;> rfl
    | some t =>
      show parseParts (acc ∪ t) ps = _
      rw [ih]
      cases tokensSem ps with
      | none => rfl
      | some ts => rfl

lemma parseParts_none_of_mem (parts : List (List Char)) (acc : Finset Int)
    (p : List Char) (hp : p ∈ parts) (hbad : tokenIndices p = none) :
    parseParts acc parts = none := by
  induction parts generalizing acc with
  | nil => cases hp
  | cons q ps ih =>
    show (match addToken acc q with
      | none => none
      | some acc2 => parseParts acc2 ps) = none
    rcases List.mem_cons.mp hp with h | h
    · subst h
      rw [addToken_eq, hbad]
      rfl
    · cases ha : addToken acc q with
      | none => rfl
      | some a2 => exact ih a2 h

/-! ## Claim C2 -/

/-- C2 counterexample: `parse("5-2", 10)` does not fail with a ParseError;
the loop `range(start - 1, end)` is simply empty for `start > end`, so the
parse succeeds with the empty index set. -/
theorem parse_start_gt_end_succeeds :
    parsePageRange "5-2" 10 = Except.ok (∅ : Finset Int) := by decide

/-- C2 amended: parse fails with ParseError exactly when a token is
non-numeric, a numeric field is missing, or a dash token does not have
exactly two integer fields; a dash range with `start > end` does NOT fail
— it contributes no indices at all (`range(start-1, end)` is empty).
Failure is deterministic and total: one malformed token anywhere makes the
whole parse return the fixed error, never a partial result. -/
theorem parse_failure_conditions :
    (∀ n : Nat, parsePageRange "5-2" n = Except.ok (∅ : Finset Int))
    ∧ (∀ s e : Int, e < s → intRange (s - 1) e = [])
    ∧ (∀ (parts : List (List Char)) (acc : Finset Int) (p : List Char),
        p ∈ parts → tokenIndices p = none → parseParts acc parts = none)
    ∧ (∀ n : Nat, parsePageRange "1,x" n
        = Except.error "Invalid page range format. Use numbers and ranges like 1, 3-5.") := by
  refine ⟨?_, ?_, parseParts_none_of_mem, ?_⟩
  · intro n
    exact (parsePageRange_totalPages_irrelevant "5-2" n 10).trans (by decide)
  · intro s e h
    unfold intRange
    have h0 : (e - (s - 1)).toNat = 0 := by omega
    rw [h0]
    rfl
  · intro n
    exact (parsePageRange_totalPages_irrelevant "1,x" n 3).trans (by decide)

/-- Witness for C2's amended theorem at concrete inputs. -/
theorem parse_failure_conditions_witness :
    parsePageRange "5-2" 3 = Except.ok (∅ : Finset Int)
    ∧ intRange 4 2 = []
    ∧ parseParts ∅ [['x']] = none
    ∧ parsePageRange "1,x" 3
        = Except.error "Invalid page range format. Use numbers and ranges like 1, 3-5." :=
  ⟨parse_failure_conditions.1 3,
   parse_failure_conditions.2.1 5 2 (by decide),
   parse_failure_conditions.2.2.1 [['x']] ∅ ['x'] (by decide) (by decide),
   parse_failure_conditions.2.2.2 3⟩

/-! ## Claim C8 -/

/-- C8: the parser is independent of `pageCount`; the token loop computes
exactly the union of the per-token index sets (set semantics, duplicates
collapse); a plain numeric token `n` yields the zero-based singleton
`{n - 1}` and a dash token `a-b` yields the zero-based interval
`range(a-1, b)`; and on the spec's example (also with extra whitespace and
duplicates) the result is {0,2,3,4,7}. -/
theorem parse_wellformed_token_semantics :
    (∀ (s : String) (n m : Nat), parsePageRange s n = parsePageRange s m)
    ∧ (∀ (parts : List (List Char)) (acc : Finset Int),
        parseParts acc parts = (tokensSem parts).map (fun ts => ts.foldl (· ∪ ·) acc))
    ∧ (∀ (part : List Char) (k : Int), part.contains '-' = false →
        pyInt part = some k → tokenIndices part = some {k - 1})
    ∧ (∀ (part a b : List Char) (x y : Int), part.contains '-' = true →
        splitOnChar '-' part = [a, b] → pyInt a = some x → pyInt b = some y →
        tokenIndices part = some (intRange (x - 1) y).toFinset)
    ∧ parsePageRange "1, 3-5, 8" 10 = Except.ok ({0, 2, 3, 4, 7} : Finset Int)
    ∧ parsePageRange " 1 ,1, 3 - 5 ,8" 99 = Except.ok ({0, 2, 3, 4, 7} : Finset Int) := by
  refine ⟨parsePageRange_totalPages_irrelevant, parseParts_eq, ?_, ?_, by decide, by decide⟩
  · intro part k h hk
    unfold tokenIndices
    rw [h]
    show (pyInt part).map (fun n => {n - 1}) = some {k - 1}
    rw [hk]
    rfl
  · intro part a b x y h hsp ha hb2
    unfold tokenIndices
    rw [h]
    show (match splitOnChar '-' part with
      | [a, b] =>
        match pyInt a, pyInt b with
        | some s, some e => some (intRange (s - 1) e).toFinset
        | _, _ => none
      | _ => none) = _
    rw [hsp]
    simp [ha, hb2]

/-- Witness for C8 at concrete tokens. -/
theorem parse_wellformed_token_semantics_witness :
    tokenIndices ['8'] = some ({7} : Finset Int)
    ∧ tokenIndices ['3', '-', '5'] = some ((intRange 2 5).toFinset) :=
  ⟨parse_wellformed_token_semantics.2.2.1 ['8'] 8 (by decide) (by decide),
   parse_wellformed_token_semantics.2.2.2.1 ['3', '-', '5'] ['3'] ['5'] 3 5
     (by decide) (by decide) (by decide) (by decide)⟩

/-! ## Split lemmas -/

lemma filterMap_if {α β : Type} (p : α → Bool) (f : α → Option β) (l : List α) :
    l.filterMap (fun a => if p a then f a else none)
      = (l.filter p).filterMap f := by
  induction l with
  | nil => rfl
  | cons a t ih =>
    by_cases h : p a
    · rw [List.filterMap_cons, List.filter_cons, if_pos h, if_pos h,
        List.filterMap_cons, ih]
    · rw [List.filterMap_cons, List.filter_cons, if_neg h, if_neg h, ih]

lemma length_filterMap_of_isSome {α β : Type} (f : α → Option β) (l : List α)
    (h : ∀ a ∈ l, (f a).isSome) : (l.filterMap f).length = l.length := by
  induction l with
  | nil => rfl
  | cons a t ih =>
    have ha : (f a).isSome := h a (List.mem_cons_self a t)
    obtain ⟨b, hb⟩ := Option.isSome_iff_exists.mp ha
    rw [List.filterMap_cons, hb]
    show (b :: t.filterMap f).length = t.length + 1
    rw [List.length_cons, ih (fun x hx => h x (List.mem_cons_of_mem a hx))]

lemma sort_filter_comm (p : Int → Bool) (s : Finset Int) :
    (Finset.sort (· ≤ ·) s).filter p
      = Finset.sort (· ≤ ·) (s.filter (fun i => p i = true)) := by
  have hperm : ((Finset.sort (· ≤ ·) s).filter p).Perm
      (Finset.sort (· ≤ ·) (s.filter (fun i => p i = true))) := by
    rw [← Multiset.coe_eq_coe]
    have h1 : ((Finset.sort (· ≤ ·) s).filter p : Multiset Int)
        = Multiset.filter (fun i => p i = true) ↑(Finset.sort (· ≤ ·) s) := by
      rw [Multiset.filter_coe]
      congr 1
      apply List.filter_congr
      intro x _
      simp
    rw [h1, Finset.sort_eq, ← Finset.filter_val, Finset.sort_eq]
  have hs1 : List.Sorted (· ≤ ·) ((Finset.sort (· ≤ ·) s).filter p) := by
    have hs : List.Sorted (· ≤ ·) (Finset.sort (· ≤ ·) s) :=
      Finset.sort_sorted (· ≤ ·) s
    exact hs.filter p
  have hs2 : List.Sorted (· ≤ ·)
      (Finset.sort (· ≤ ·) (s.filter (fun i => p i = true))) :=
    Finset.sort_sorted (· ≤ ·) _
  exact List.eq_of_perm_of_sorted hperm hs1 hs2

lemma splitSelect_pages_canonical (pages : List PdfPage) (sel : Finset Int) :
    (splitSelect pages sel).1
      = (Finset.sort (· ≤ ·) (sel.filter (fun i => inBounds pages.length i = true))).filterMap
          (fun i => pages.get? i.toNat) := by
  show (Finset.sort (· ≤ ·) sel).filterMap
      (fun i => if inBounds pages.length i then pages.get? i.toNat else none) = _
  rw [filterMap_if, sort_filter_comm]

lemma splitSelect_warnings (pages : List PdfPage) (sel : Finset Int) :
    (splitSelect pages sel).2
      = (sel.filter (fun i => inBounds pages.length i = false)).card := by
  show ((Finset.sort (· ≤ ·) sel).filter (fun i => !inBounds pages.length i)).length = _
  rw [sort_filter_comm, Finset.length_sort]
  congr 1
  apply Finset.filter_congr
  intro x _
  rw [Bool.not_eq_true']

lemma splitSelect_length (pages : List PdfPage) (sel : Finset Int) :
    ((splitSelect pages sel).1).length
      = (sel.filter (fun i => inBounds pages.length i = true)).card := by
  rw [splitSelect_pages_canonical, ← Finset.length_sort (· ≤ ·)]
  apply length_filterMap_of_isSome
  intro i hi
  have hmem := (Finset.mem_sort (· ≤ ·)).mp hi
  have hb : inBounds pages.length i = true := (Finset.mem_filter.mp hmem).2
  have h0 : 0 ≤ i := by
    have := Bool.and_elim_left hb
    exact of_decide_eq_true this
  have h1 : i < (pages.length : Int) := by
    have := Bool.and_elim_right hb
    exact of_decide_eq_true this
  have hlt : i.toNat < pages.length := (Int.toNat_lt h0).mpr h1
  rw [List.get?_eq_get hlt]
  rfl

lemma filterMap_get?_shift {α : Type} (js : List Nat) (a : α) (l : List α)
    (h : ∀ j ∈ js, 1 ≤ j) :
    js.filterMap (a :: l).get? = (js.map (fun j => j - 1)).filterMap l.get? := by
  induction js with
  | nil => rfl
  | cons j t ih =>
    have hj : 1 ≤ j := h j (List.mem_cons_self j t)
    obtain ⟨jj, rfl⟩ : ∃ jj, j = jj + 1 := ⟨j - 1, by omega⟩
    rw [List.map_cons, List.filterMap_cons, List.filterMap_cons]
    have e1 : (a :: l).get? (jj + 1) = l.get? jj := List.get?_cons_succ
    have e2 : jj + 1 - 1 = jj := rfl
    rw [e1, e2, ih (fun x hx => h x (List.mem_cons_of_mem _ hx))]

lemma filterMap_get?_sublist {α : Type} (l : List α) (js : List Nat)
    (hp : js.Pairwise (· < ·)) : List.Sublist (js.filterMap l.get?) l := by
  induction l generalizing js with
  | nil =>
    have he : js.filterMap ([] : List α).get? = [] :=
      List.filterMap_eq_nil_iff.mpr (fun a _ => rfl)
    rw [he]
  | cons a l ih =>
    cases js with
    | nil => exact List.nil_sublist _
    | cons j t =>
      have hmem : ∀ x ∈ t, j < x := (List.pairwise_cons.mp hp).1
      have hpt : t.Pairwise (· < ·) := (List.pairwise_cons.mp hp).2
      cases j with
      | zero =>
        rw [List.filterMap_cons]
        have h0 : (a :: l).get? 0 = some a := rfl
        rw [h0]
        have h1 : ∀ x ∈ t, 1 ≤ x := fun x hx => by have := hmem x hx; omega
        rw [filterMap_get?_shift t a l h1]
        refine List.Sublist.cons₂ a (ih _ ?_)
        rw [List.pairwise_map]
        refine List.Pairwise.imp_of_mem ?_ hpt
        intro x y hx hy hlt
        have := h1 x hx
        omega
      | succ jj =>
        have hall : ∀ x ∈ (jj + 1) :: t, 1 ≤ x := by
          intro x hx
          rcases List.mem_cons.mp hx with h | h
          · omega
          · have := hmem x h
            omega
        rw [filterMap_get?_shift ((jj + 1) :: t) a l hall]
        refine List.Sublist.cons a (ih _ ?_)
        rw [List.pairwise_map]
        refine List.Pairwise.imp_of_mem ?_ hp
        intro x y hx hy hlt
        have := hall x hx
        omega

lemma splitSelect_sublist (pages : List PdfPage) (sel : Finset Int) :
    List.Sublist (splitSelect pages sel).1 pages := by
  rw [splitSelect_pages_canonical]
  have hpair : ((Finset.sort (· ≤ ·)
      (sel.filter (fun i => inBounds pages.length i = true))).map Int.toNat).Pairwise
        (· < ·) := by
    rw [List.pairwise_map]
    have hs : (Finset.sort (· ≤ ·)
        (sel.filter (fun i => inBounds pages.length i = true))).Pairwise (· < ·) :=
      Finset.sort_sorted_lt _
    refine List.Pairwise.imp_of_mem ?_ hs
    intro x y hx hy hlt
    have hxm := (Finset.mem_sort (· ≤ ·)).mp hx
    have hym := (Finset.mem_sort (· ≤ ·)).mp hy
    have hbx : inBounds pages.length x = true := (Finset.mem_filter.mp hxm).2
    have hby : inBounds pages.length y = true := (Finset.mem_filter.mp hym).2
    have h0x : 0 ≤ x := of_decide_eq_true (Bool.and_elim_left hbx)
    have h0y : 0 ≤ y := of_decide_eq_true (Bool.and_elim_left hby)
    omega
  have hsub := filterMap_get?_sublist pages
    ((Finset.sort (· ≤ ·) (sel.filter (fun i => inBounds pages.length i = true))).map
      Int.toNat) hpair
  rw [List.filterMap_map] at hsub
  exact hsub

lemma range_filterMap_get? {α : Type} (l : List α) :
    (List.range l.length).filterMap l.get? = l := by
  induction l with
  | nil => rfl
  | cons a t ih =>
    have hl : (a :: t).length = t.length + 1 := rfl
    rw [hl, List.range_succ_eq_map, List.filterMap_cons]
    have h0 : (a :: t).get? 0 = some a := rfl
    rw [h0, List.filterMap_map]
    have hc : (a :: t).get? ∘ Nat.succ = t.get? :=
      funext (fun j => List.get?_cons_succ)
    rw [hc, ih]

lemma sort_fullRange (n : Nat) :
    Finset.sort (· ≤ ·) (fullRange n) = (List.range n).map (fun k : Nat => (k : Int)) := by
  have hnodup : ((List.range n).map (fun k : Nat => (k : Int))).Nodup := by
    refine List.Nodup.map ?_ (List.nodup_range n)
    intro x y hxy
    exact Int.natCast_inj.mp hxy
  have hperm : (Finset.sort (· ≤ ·) (fullRange n)).Perm
      ((List.range n).map (fun k : Nat => (k : Int))) := by
    rw [← Multiset.coe_eq_coe, Finset.sort_eq]
    show (Multiset.toFinset _).val = _
    rw [Multiset.toFinset_val,
      Multiset.dedup_eq_self.mpr (Multiset.coe_nodup.mpr hnodup)]
  have hs1 : List.Sorted (· ≤ ·) (Finset.sort (· ≤ ·) (fullRange n)) :=
    Finset.sort_sorted (· ≤ ·) _
  have hs2 : List.Pairwise (· ≤ ·) ((List.range n).map (fun k : Nat => (k : Int))) := by
    rw [List.pairwise_map]
    refine List.Pairwise.imp ?_ (List.pairwise_lt_range n)
    intro a b hab
    exact_mod_cast Nat.le_of_lt hab
  exact List.eq_of_perm_of_sorted hperm hs1 hs2

lemma fullRange_all_inBounds (pages : List PdfPage) :
    ∀ i ∈ (List.range pages.length).map (fun k : Nat => (k : Int)),
      inBounds pages.length i = true := by
  intro i hi
  obtain ⟨k, hk, rfl⟩ := List.mem_map.mp hi
  have hkn : k < pages.length := List.mem_range.mp hk
  simp only [inBounds, Bool.and_eq_true, decide_eq_true_eq]
  omega

lemma splitSelect_fullRange (pages : List PdfPage) :
    splitSelect pages (fullRange pages.length) = (pages, 0) := by
  have h1 : (splitSelect pages (fullRange pages.length)).1 = pages := by
    rw [splitSelect_pages_canonical]
    have hfil : (fullRange pages.length).filter
        (fun i => inBounds pages.length i = true) = fullRange pages.length := by
      apply Finset.filter_true_of_mem
      intro i hi
      exact fullRange_all_inBounds pages i (List.mem_toFinset.mp hi)
    rw [hfil, sort_fullRange, List.filterMap_map]
    have hcomp : ((fun i : Int => pages.get? i.toNat) ∘ (fun k : Nat => (k : Int)))
        = pages.get? := by
      funext k
      show pages.get? ((k : Int)).toNat = pages.get? k
      rw [Int.toNat_ofNat]
    rw [hcomp, range_filterMap_get?]
  have h2 : (splitSelect pages (fullRange pages.length)).2 = 0 := by
    rw [splitSelect_warnings]
    apply Finset.card_eq_zero.mpr
    apply Finset.filter_false_of_mem
    intro i hi
    have hm := fullRange_all_inBounds pages i (List.mem_toFinset.mp hi)
    simp [hm]
  calc splitSelect pages (fullRange pages.length)
      = ((splitSelect pages (fullRange pages.length)).1,
         (splitSelect pages (fullRange pages.length)).2) := rfl
    _ = (pages, 0) := by rw [h1, h2]

lemma inBounds_neg_one (n : Nat) : inBounds n (-1) = false := by
  simp [inBounds]

lemma rotateFrom_insert_neg_one (angle : Int) (sel : Finset Int) (i : Nat)
    (pages : List PdfPage) :
    rotateFrom angle (insert (-1) sel) i pages = rotateFrom angle sel i pages := by
  induction pages generalizing i with
  | nil => rfl
  | cons p ps ih =>
    show (if (i : Int) ∈ insert (-1) sel then rotatePage angle p else p)
        :: rotateFrom angle (insert (-1) sel) (i + 1) ps
      = (if (i : Int) ∈ sel then rotatePage angle p else p)
        :: rotateFrom angle sel (i + 1) ps
    have hiff : ((i : Int) ∈ insert (-1) sel) ↔ ((i : Int) ∈ sel) := by
      rw [Finset.mem_insert]
      constructor
      · rintro (h | h)
        · exfalso
          omega
        · exact h
      · exact Or.inr
    rw [ih]
    by_cases hm : (i : Int) ∈ sel
    · rw [if_pos hm, if_pos (hiff.mpr hm)]
    · rw [if_neg hm, if_neg (fun hc => hm (hiff.mp hc))]

lemma split_pdf_eval (doc : PdfDocument) (s : String) (sel : Finset Int)
    (sorted : List Int)
    (hp : parsePageRange s doc.pages.length = Except.ok sel)
    (hs : Finset.sort (· ≤ ·) sel = sorted) :
    split_pdf doc s = Except.ok
      (⟨sorted.filterMap (fun i =>
          if inBounds doc.pages.length i then doc.pages.get? i.toNat else none)⟩,
       (sorted.filter (fun i => !inBounds doc.pages.length i)).length) := by
  unfold split_pdf
  rw [hp]
  show Except.ok _ = _
  simp only [splitSelect]
  rw [hs]

/-! ## Claim C4 -/

/-- C4 counterexample: splitting a one-page document with range "5" yields
zero valid pages, yet `split_pdf` succeeds with an empty document and one
recorded warning — it does not fail with a ValidationError on an empty
result. -/
theorem split_empty_result_is_not_an_error :
    split_pdf ⟨[⟨0, 0, []⟩]⟩ "5" = Except.ok (⟨[]⟩, 1) := by
  have h := split_pdf_eval ⟨[⟨0, 0, []⟩]⟩ "5" {4} [4] (by decide)
    (Finset.sort_singleton (· ≤ ·) 4)
  exact h.trans (by decide)

/-- C4 amended: whenever the range string parses, `split_pdf` succeeds —
each index outside `[0, pageCount)` is skipped non-fatally with one
recorded warning and the valid subset is returned (its size is the number
of selected in-bounds indices); in particular a zero-page result is
returned as an empty document, not raised as a ValidationError. -/
theorem split_skips_out_of_range_and_never_fails_on_empty
    (doc : PdfDocument) (s : String) (sel : Finset Int)
    (h : parsePageRange s doc.pages.length = Except.ok sel) :
    split_pdf doc s
      = Except.ok (⟨(splitSelect doc.pages sel).1⟩, (splitSelect doc.pages sel).2)
    ∧ ((splitSelect doc.pages sel).1).length
        = (sel.filter (fun i => inBounds doc.pages.length i = true)).card
    ∧ (splitSelect doc.pages sel).2
        = (sel.filter (fun i => inBounds doc.pages.length i = false)).card := by
  refine ⟨?_, splitSelect_length doc.pages sel, splitSelect_warnings doc.pages sel⟩
  show (parsePageRange s doc.pages.length).map _ = _
  rw [h]
  rfl

/-- Witness for C4's amended theorem at a concrete document and range. -/
theorem split_skips_out_of_range_and_never_fails_on_empty_witness :
    split_pdf ⟨[⟨0, 0, []⟩]⟩ "1,5"
      = Except.ok (⟨(splitSelect [⟨0, 0, []⟩] {0, 4}).1⟩,
          (splitSelect [⟨0, 0, []⟩] {0, 4}).2)
    ∧ ((splitSelect [⟨0, 0, []⟩] ({0, 4} : Finset Int)).1).length
        = (({0, 4} : Finset Int).filter (fun i => inBounds 1 i = true)).card
    ∧ (splitSelect [⟨0, 0, []⟩] ({0, 4} : Finset Int)).2
        = (({0, 4} : Finset Int).filter (fun i => inBounds 1 i = false)).card :=
  split_skips_out_of_range_and_never_fails_on_empty ⟨[⟨0, 0, []⟩]⟩ "1,5" {0, 4}
    (by decide)

/-! ## Claim C5 -/

/-- C5: the pages emitted by split are always a sublist of the original
page list (sorted ascending by original page index, independent of the
order the range string implied), and selecting the full index set
`{0, ..., N-1}` reproduces all N pages in original order with no warning. -/
theorem split_output_follows_original_order :
    (∀ (pages : List PdfPage) (sel : Finset Int),
        List.Sublist (splitSelect pages sel).1 pages)
    ∧ (∀ pages : List PdfPage, splitSelect pages (fullRange pages.length) = (pages, 0))
    ∧ (∀ (doc : PdfDocument) (s : String) (out : PdfDocument × Nat),
        split_pdf doc s = Except.ok out → List.Sublist out.1.pages doc.pages) := by
  refine ⟨splitSelect_sublist, splitSelect_fullRange, ?_⟩
  intro doc s out hout
  cases hp : parsePageRange s doc.pages.length with
  | error e =>
    unfold split_pdf at hout
    rw [hp] at hout
    simp [Except.map] at hout
  | ok sel =>
    unfold split_pdf at hout
    rw [hp] at hout
    have hout2 : ((⟨(splitSelect doc.pages sel).1⟩ : PdfDocument),
        (splitSelect doc.pages sel).2) = out := by
      injection hout
    rw [← hout2]
    exact splitSelect_sublist doc.pages sel

/-- Witness for C5 at a concrete document and range. -/
theorem split_output_follows_original_order_witness :
    List.Sublist (((⟨[⟨7, 0, []⟩]⟩ : PdfDocument), 0) : PdfDocument × Nat).1.pages
      (⟨[⟨7, 0, []⟩]⟩ : PdfDocument).pages :=
  split_output_follows_original_order.2.2 ⟨[⟨7, 0, []⟩]⟩ "1" (⟨[⟨7, 0, []⟩]⟩, 0)
    (by
      have h := split_pdf_eval ⟨[⟨7, 0, []⟩]⟩ "1" {0} [0] (by decide)
        (Finset.sort_singleton (· ≤ ·) 0)
      exact h.trans (by decide))

/-! ## Claim C10 -/

/-- C10: the parser accepts the token "0" without error, mapping it to the
negative index -1; a selection containing -1 contributes no page to a
split (only one extra warning) and never selects a page for rotation (page
indices are naturals, never -1); concretely, splitting a one-page document
with range "0" returns an empty document with one warning and rotating
with range "0" leaves every page untouched — neither operation aborts. -/
theorem zero_token_maps_to_neg_one_and_is_skipped :
    (∀ n : Nat, parsePageRange "0" n = Except.ok ({-1} : Finset Int))
    ∧ (∀ (pages : List PdfPage) (sel : Finset Int), -1 ∉ sel →
        (splitSelect pages (insert (-1) sel)).1 = (splitSelect pages sel).1
        ∧ (splitSelect pages (insert (-1) sel)).2 = (splitSelect pages sel).2 + 1)
    ∧ (∀ (angle : Int) (sel : Finset Int) (i : Nat) (pages : List PdfPage),
        rotateFrom angle (insert (-1) sel) i pages = rotateFrom angle sel i pages)
    ∧ split_pdf ⟨[⟨0, 0, []⟩]⟩ "0" = Except.ok (⟨[]⟩, 1)
    ∧ rotate_pdf_pages ⟨[⟨0, 0, []⟩]⟩ 90 (some "0") = Except.ok ⟨[⟨0, 0, []⟩]⟩ := by
  refine ⟨?_, ?_, rotateFrom_insert_neg_one, ?_, by decide⟩
  · intro n
    exact (parsePageRange_totalPages_irrelevant "0" n 0).trans (by decide)
  · intro pages sel hneg
    have hfalse : ¬ (inBounds pages.length (-1) = true) := by
      rw [inBounds_neg_one]
      exact Bool.false_ne_true
    constructor
    · rw [splitSelect_pages_canonical, splitSelect_pages_canonical]
      have hfe : (insert (-1) sel).filter (fun i => inBounds pages.length i = true)
          = sel.filter (fun i => inBounds pages.length i = true) := by
        rw [Finset.filter_insert, if_neg hfalse]
      rw [hfe]
    · rw [splitSelect_warnings, splitSelect_warnings]
      have hfe : (insert (-1) sel).filter (fun i => inBounds pages.length i = false)
          = insert (-1) (sel.filter (fun i => inBounds pages.length i = false)) := by
        rw [Finset.filter_insert, if_pos (inBounds_neg_one pages.length)]
      rw [hfe]
      exact Finset.card_insert_of_not_mem
        (fun hc => hneg (Finset.mem_filter.mp hc).1)
  · have h := split_pdf_eval ⟨[⟨0, 0, []⟩]⟩ "0" {-1} [-1] (by decide)
      (Finset.sort_singleton (· ≤ ·) (-1))
    exact h.trans (by decide)

/-- Witness for C10 at a concrete page list and selection. -/
theorem zero_token_maps_to_neg_one_and_is_skipped_witness :
    (splitSelect [⟨0, 0, []⟩] (insert (-1) ({0} : Finset Int))).1
        = (splitSelect [⟨0, 0, []⟩] ({0} : Finset Int)).1
    ∧ (splitSelect [⟨0, 0, []⟩] (insert (-1) ({0} : Finset Int))).2
        = (splitSelect [⟨0, 0, []⟩] ({0} : Finset Int)).2 + 1 :=
  zero_token_maps_to_neg_one_and_is_skipped.2.1 [⟨0, 0, []⟩] {0} (by decide)
